import Mathlib

/-!
Verification of the voxel simulation core (`src/services/VoxelEngine.ts`).

The engine's numeric state (positions, velocities, rotations, normalized
color channels, delays, timestamps) is embedded with exact rationals `ℚ`
standing for the source's numbers.  Stateful methods become pure functions
on an explicit `EngineState`; the ambient wall clock (`Date.now()`) and the
random generator (`Math.random()`) are passed in as explicit arguments, and
fields of the `THREE.Color` helper that the engine relies on (hex packing
and unpacking of normalized 0–1 RGB channels) are embedded directly.

The source's `getColorDist` returns `Math.sqrt` of a sum of squares and is
used only in strict comparisons against other such values and against the
constants `9999` and `0.01`.  Since `x ↦ √x` is strictly monotone on
nonnegatives, those comparisons coincide with comparisons of the squared
quantities against `9999²  = 99980001` and `0.01² = 1/10000`; the embedding
(`getColorDist2`) therefore carries the square, keeping every definition
executable, and the bridge to the square root is proved where the spec
speaks about the distance itself.
-/

namespace VoxelSpec

/- The rational arithmetic operations are `@[irreducible]` in Batteries,
which blocks `decide` on concrete engine computations; restore the default
reducibility for this development so that witnesses evaluate. -/
attribute [local semireducible] Rat.mul Rat.inv Rat.add Rat.sub Rat.ofScientific

/-- Lifecycle state of the engine (`AppState` in the source). -/
inductive AppState where
  | STABLE
  | DISMANTLING
  | REBUILDING
deriving DecidableEq

/-- Normalized RGB color with 0–1 channels (the fields of `THREE.Color`
that the engine reads and writes). -/
structure Color where
  r : ℚ
  g : ℚ
  b : ℚ
deriving DecidableEq

/-- Unpacking of a 24-bit hex color into normalized 0–1 channels, as
performed by the `THREE.Color` constructor (`setHex`): each byte of the
packed value divided by 255. -/
def Color.ofHex (h : ℕ) : Color :=
  { r := ((h / 65536 % 256 : ℕ) : ℚ) / 255
    g := ((h / 256 % 256 : ℕ) : ℚ) / 255
    b := ((h % 256 : ℕ) : ℚ) / 255 }

/-- Rounding as JavaScript's `Math.round` on the values arising here:
`⌊q + 1/2⌋`, taken as a natural number after clamping to `[0, 255]`. -/
def roundClamp255 (q : ℚ) : ℕ :=
  (⌊max 0 (min q 255) + 1/2⌋).toNat

/-- Packing of normalized channels back into a 24-bit value, as performed
by `THREE.Color.getHex`: each channel scaled by 255, clamped and rounded. -/
def Color.getHex (c : Color) : ℕ :=
  roundClamp255 (c.r * 255) * 65536 + roundClamp255 (c.g * 255) * 256 +
    roundClamp255 (c.b * 255)

/-- A simulated voxel (`SimulationVoxel` in the source): identity, position,
color, linear velocity, rotation, angular velocity. -/
structure SimulationVoxel where
  id : ℕ
  x : ℚ
  y : ℚ
  z : ℚ
  color : Color
  vx : ℚ
  vy : ℚ
  vz : ℚ
  rx : ℚ
  ry : ℚ
  rz : ℚ
  rvx : ℚ
  rvy : ℚ
  rvz : ℚ
deriving DecidableEq

/-- Neutral transfer form (`VoxelData` in the source): a position and a
packed 24-bit color. -/
structure VoxelData where
  x : ℚ
  y : ℚ
  z : ℚ
  color : ℕ
deriving DecidableEq

/-- Per-source-voxel assignment produced by the matcher (`RebuildTarget`).
The source leaves `isRubble` undefined (falsy) on matched targets; the
embedding stores `false` there. -/
structure RebuildTarget where
  x : ℚ
  y : ℚ
  z : ℚ
  delay : ℚ
  isRubble : Bool
deriving DecidableEq

/-- The engine state the claims are about: the voxel store, the matcher's
target table, the rebuild start timestamp and the lifecycle state. -/
structure EngineState where
  voxels : List SimulationVoxel
  rebuildTargets : List RebuildTarget
  rebuildStartTime : ℚ
  state : AppState
deriving DecidableEq

/-! ## Voxel store: loading and snapshots -/

/-- Body of `createVoxels`' mapping step: `data.map((v, i) => ...)` builds a
voxel with `id := i`, the data's position and color (unpacked to normalized
channels), and zero velocities and rotations.  The auxiliary carries the
running index. -/
def createVoxelsAux (i : ℕ) : List VoxelData → List SimulationVoxel
  | [] => []
  | v :: rest =>
      { id := i, x := v.x, y := v.y, z := v.z, color := Color.ofHex v.color
        vx := 0, vy := 0, vz := 0, rx := 0, ry := 0, rz := 0
        rvx := 0, rvy := 0, rvz := 0 } :: createVoxelsAux (i + 1) rest

/-- The data part of `createVoxels` (mesh management is rendering-only). -/
def createVoxels (data : List VoxelData) : List SimulationVoxel :=
  createVoxelsAux 0 data

/-- `loadInitialModel`: replaces the voxel set and resets the state to
`STABLE` (the count/state change callbacks are notification-only). -/
def loadInitialModel (s : EngineState) (data : List VoxelData) : EngineState :=
  { s with voxels := createVoxels data, state := AppState.STABLE }

/-- `getVoxelData`: the snapshot of the store in the neutral transfer form,
one entry per voxel in index order, colors re-packed to 24-bit values. -/
def getVoxelData (s : EngineState) : List VoxelData :=
  s.voxels.map fun v => { x := v.x, y := v.y, z := v.z, color := v.color.getHex }

/-! ## Color distance -/

/-- Square of the source's `getColorDist`: the source computes
`r = (c1.r - c2.r) * 0.3`, `g = (c1.g - c2.g) * 0.59`,
`b = (c1.b - c2.b) * 0.11` on normalized channels, with `c2` unpacked from
the hex argument, and returns `Math.sqrt (r*r + g*g + b*b)`; the embedding
returns the radicand. -/
def getColorDist2 (c1 : Color) (hex2 : ℕ) : ℚ :=
  let c2 := Color.ofHex hex2
  let r := (c1.r - c2.r) * 0.3
  let g := (c1.g - c2.g) * 0.59
  let b := (c1.b - c2.b) * 0.11
  r * r + g * g + b * b

/-! ## Reassembly matcher (`rebuild`) -/

/-- Working entry of the matcher's `available` list:
`{index: i, color: v.color, taken: false}`. -/
structure AvailEntry where
  index : ℕ
  color : Color
  taken : Bool
deriving DecidableEq

/-- Construction of the `available` list: one entry per voxel carrying its
index and color, `taken` initialized to `false`. -/
def buildAvail (i : ℕ) : List SimulationVoxel → List AvailEntry
  | [] => []
  | v :: rest => { index := i, color := v.color, taken := false } :: buildAvail (i + 1) rest

/-- Inner scan of the matcher over the `available` list, with the running
best distance and best index as accumulators.  The source initializes
`bestDist = 9999` and `bestIdx = -1`, compares `Math.sqrt` distances, and
breaks out of the loop as soon as a new best with distance `< 0.01` is
found; the embedding carries squared distances (thresholds `9999² =
99980001` and `0.01² = 1/10000`, equivalent under the strict monotonicity
of the square root on nonnegatives) and models the `-1` sentinel as
`none`. -/
def matchScanAux (tc : ℕ) : List AvailEntry → ℚ → Option ℕ → Option ℕ
  | [], _, best => best
  | e :: rest, bestDist, best =>
    if e.taken then matchScanAux tc rest bestDist best
    else if getColorDist2 e.color tc < bestDist then
      if getColorDist2 e.color tc < 1 / 10000 then some e.index
      else matchScanAux tc rest (getColorDist2 e.color tc) (some e.index)
    else matchScanAux tc rest bestDist best

/-- The matcher's early-exiting inner scan at its initial accumulators. -/
def matchScan (avail : List AvailEntry) (tc : ℕ) : Option ℕ :=
  matchScanAux tc avail 99980001 none

/-- The same inner scan with the early exit removed: every untaken entry is
compared, and the running best is only ever replaced by a strictly better
one.  Used to state and settle the claim that the early exit is a pure
optimization. -/
def matchScanFullAux (tc : ℕ) : List AvailEntry → ℚ → Option ℕ → Option ℕ
  | [], _, best => best
  | e :: rest, bestDist, best =>
    if e.taken then matchScanFullAux tc rest bestDist best
    else if getColorDist2 e.color tc < bestDist then
      matchScanFullAux tc rest (getColorDist2 e.color tc) (some e.index)
    else matchScanFullAux tc rest bestDist best

/-- The full (non-early-exiting) scan at the matcher's initial accumulators. -/
def matchScanFull (avail : List AvailEntry) (tc : ℕ) : Option ℕ :=
  matchScanFullAux tc avail 99980001 none

/-- Greedy assignment loop of `rebuild`, parameterized by the per-target
selection function so that the source's scan and the specification's
declarative choice can be compared: for each target cell in input order, if
a source is chosen, mark it taken, and record a matched `RebuildTarget`
whose delay is `max 0 ((target.y - floorY) / 15) * 800`. -/
def rebuildLoopWith (choose : List AvailEntry → ℕ → Option ℕ) (floorY : ℚ) :
    List VoxelData → List AvailEntry → List (Option RebuildTarget) →
      List (Option RebuildTarget)
  | [], _, maps => maps
  | t :: rest, avail, maps =>
    match choose avail t.color with
    | none => rebuildLoopWith choose floorY rest avail maps
    | some j =>
        let availNext := avail.map fun e =>
          if e.index = j then { e with taken := true } else e
        let h := max 0 ((t.y - floorY) / 15)
        rebuildLoopWith choose floorY rest availNext
          (maps.set j (some { x := t.x, y := t.y, z := t.z, delay := h * 800,
                              isRubble := false }))

/-- `rebuild`: a no-op while already `REBUILDING`; otherwise runs the
matcher over the target model, fills every unmatched slot with a rubble
target at the voxel's current position, stores the target table and start
timestamp, and transitions to `REBUILDING`.  `now` stands for
`Date.now()` and `floorY` for `CONFIG.FLOOR_Y`. -/
def rebuild (s : EngineState) (targetModel : List VoxelData) (floorY now : ℚ) :
    EngineState :=
  if s.state = AppState.REBUILDING then s
  else
    let available := buildAvail 0 s.voxels
    let maps := rebuildLoopWith matchScan floorY targetModel available
      (List.replicate s.voxels.length none)
    let targets := (s.voxels.zip maps).map fun vm =>
      vm.2.getD { x := vm.1.x, y := vm.1.y, z := vm.1.z, delay := 0, isRubble := true }
    { s with rebuildTargets := targets, rebuildStartTime := now,
             state := AppState.REBUILDING }

/-! ## Dismantling -/

/-- Velocity seeding of one voxel on `dismantle`; the source draws six
`Math.random()` values per voxel in the order `vx, vy, vz, rvx, rvy, rvz`,
modeled by the stream `rand` consumed at positions `6*k ..`. -/
def seedVoxel (rand : ℕ → ℚ) (k : ℕ) (v : SimulationVoxel) : SimulationVoxel :=
  { v with
    vx := (rand (6 * k) - 0.5) * 0.8
    vy := rand (6 * k + 1) * 0.5
    vz := (rand (6 * k + 2) - 0.5) * 0.8
    rvx := (rand (6 * k + 3) - 0.5) * 0.2
    rvy := (rand (6 * k + 4) - 0.5) * 0.2
    rvz := (rand (6 * k + 5) - 0.5) * 0.2 }

/-- Indexed seeding of the whole voxel list. -/
def seedVoxels (rand : ℕ → ℚ) (k : ℕ) : List SimulationVoxel → List SimulationVoxel
  | [] => []
  | v :: rest => seedVoxel rand k v :: seedVoxels rand (k + 1) rest

/-- `dismantle`: a no-op unless the state is `STABLE`; otherwise transitions
to `DISMANTLING` and seeds every voxel with randomized velocities. -/
def dismantle (s : EngineState) (rand : ℕ → ℚ) : EngineState :=
  if s.state ≠ AppState.STABLE then s
  else { s with state := AppState.DISMANTLING, voxels := seedVoxels rand 0 s.voxels }

/-! ## Physics integrator and reassembly animator (`updatePhysics`) -/

/-- One dismantling physics step for one voxel: gravity `0.025` on the
vertical velocity, Euler integration of position and rotation, then the
floor-collision clamp at `floorY + 0.5` with a `-0.5` vertical bounce,
`0.9` horizontal damping and `0.8` angular damping. -/
def stepVoxelDismantle (floorY : ℚ) (v : SimulationVoxel) : SimulationVoxel :=
  let vy := v.vy - 0.025
  let x := v.x + v.vx
  let y := v.y + vy
  let z := v.z + v.vz
  let rx := v.rx + v.rvx
  let ry := v.ry + v.rvy
  let rz := v.rz + v.rvz
  if y < floorY + 0.5 then
    { v with x := x, y := floorY + 0.5, z := z, rx := rx, ry := ry, rz := rz
             vy := vy * (-0.5), vx := v.vx * 0.9, vz := v.vz * 0.9
             rvx := v.rvx * 0.8, rvy := v.rvy * 0.8, rvz := v.rvz * 0.8 }
  else
    { v with x := x, y := y, z := z, rx := rx, ry := ry, rz := rz, vy := vy }

/-- Raw easing move of one rebuilding voxel: each position axis moves a
`0.12` fraction of its residual toward the target, each rotation axis a
`0.12` fraction toward zero. -/
def easeVoxel (v : SimulationVoxel) (t : RebuildTarget) : SimulationVoxel :=
  { v with
    x := v.x + (t.x - v.x) * 0.12
    y := v.y + (t.y - v.y) * 0.12
    z := v.z + (t.z - v.z) * 0.12
    rx := v.rx + (0 - v.rx) * 0.12
    ry := v.ry + (0 - v.ry) * 0.12
    rz := v.rz + (0 - v.rz) * 0.12 }

/-- Squared distance from a voxel's position to its target's position. -/
def targetDist2 (v : SimulationVoxel) (t : RebuildTarget) : ℚ :=
  (t.x - v.x) ^ 2 + (t.y - v.y) ^ 2 + (t.z - v.z) ^ 2

/-- One animator step for one (voxel, target) pair: rubble is skipped, a
voxel still inside its start delay does not move, and otherwise the voxel
is eased and then snapped exactly onto the target (with rotation zeroed)
unless its post-move squared distance still exceeds `0.01`. -/
def stepVoxelRebuild (elapsed : ℚ) (vt : SimulationVoxel × RebuildTarget) :
    SimulationVoxel :=
  let v := vt.1
  let t := vt.2
  if t.isRubble then v
  else if elapsed < t.delay then v
  else
    let w := easeVoxel v t
    if targetDist2 w t > 0.01 then w
    else { w with x := t.x, y := t.y, z := t.z, rx := 0, ry := 0, rz := 0 }

/-- Contribution of one (voxel, target) pair to the animator's `allDone`
flag: rubble contributes nothing (stays done), a delayed voxel clears the
flag, and otherwise the flag survives exactly when the post-move squared
distance does not exceed `0.01`. -/
def voxelDone (elapsed : ℚ) (vt : SimulationVoxel × RebuildTarget) : Bool :=
  let v := vt.1
  let t := vt.2
  if t.isRubble then true
  else if elapsed < t.delay then false
  else decide (¬ targetDist2 (easeVoxel v t) t > 0.01)

/-- `updatePhysics`: in `DISMANTLING`, every voxel takes one physics step;
in `REBUILDING`, every voxel is advanced against its target (the source
indexes the parallel `rebuildTargets` array, embedded as a zip of the two
equal-length lists) and the state auto-transitions to `STABLE` when the
`allDone` flag survives; in `STABLE`, nothing happens.  `now` stands for
`Date.now()`. -/
def updatePhysics (s : EngineState) (floorY now : ℚ) : EngineState :=
  match s.state with
  | AppState.DISMANTLING =>
      { s with voxels := s.voxels.map (stepVoxelDismantle floorY) }
  | AppState.REBUILDING =>
      let elapsed := now - s.rebuildStartTime
      let pairs := s.voxels.zip s.rebuildTargets
      let voxelsNext := pairs.map (stepVoxelRebuild elapsed)
      let allDone := pairs.all (voxelDone elapsed)
      { s with voxels := voxelsNext,
               state := if allDone then AppState.STABLE else AppState.REBUILDING }
  | AppState.STABLE => s

/-! ## JSON serialization (`getJsonData`) -/

/-- One record of the exposed serialization: `{id, x, y, z, c}` with `c`
holding the hex color string (the spec calls this component `colorHex`). -/
structure JsonVoxel where
  id : ℕ
  x : ℚ
  y : ℚ
  z : ℚ
  c : String
deriving DecidableEq

/-- JavaScript's `Number.toFixed(2)` (with the leading `+` coercion back to
a number): rounding to the nearest hundredth, ties away from zero toward
larger values: `⌊q·100 + 1/2⌋ / 100`. -/
def toFixed2 (q : ℚ) : ℚ := (⌊q * 100 + 1/2⌋ : ℚ) / 100

/-- Lowercase hexadecimal digit for a value below 16. -/
def hexChar (n : ℕ) : Char :=
  if n < 10 then Char.ofNat (48 + n) else Char.ofNat (87 + n)

/-- `THREE.Color.getHexString`: the packed 24-bit color printed as exactly
six lowercase hexadecimal digits (zero-padded). -/
def Color.getHexString (c : Color) : String :=
  let h := c.getHex
  String.mk [hexChar (h / 1048576 % 16), hexChar (h / 65536 % 16),
             hexChar (h / 4096 % 16), hexChar (h / 256 % 16),
             hexChar (h / 16 % 16), hexChar (h % 16)]

/-- Record list built by `getJsonData` before `JSON.stringify`: one record
per voxel in index order, coordinates passed through `toFixed(2)` and the
color rendered as `'#' + getHexString()`. -/
def getJsonDataAux (i : ℕ) : List SimulationVoxel → List JsonVoxel
  | [] => []
  | v :: rest =>
      { id := i, x := toFixed2 v.x, y := toFixed2 v.y, z := toFixed2 v.z
        c := "#" ++ v.color.getHexString } :: getJsonDataAux (i + 1) rest

/-- The exposed neutral serialization (the source then applies
`JSON.stringify` to this record list; the claims are about the records). -/
def getJsonData (s : EngineState) : List JsonVoxel :=
  getJsonDataAux 0 s.voxels

/-! ## General list helpers -/

/-- Optional indexing into a zip, expressed through the components. -/
theorem zip_getElem?_eq (as : List α) (bs : List β) (i : ℕ) :
    (as.zip bs)[i]? = (as[i]?).bind fun a => (bs[i]?).map fun b => (a, b) := by
  induction as generalizing bs i with
  | nil => simp
  | cons a as ih =>
    cases bs with
    | nil => simp
    | cons b bs =>
      cases i with
      | zero => simp [List.zip_cons_cons]
      | succ n => simpa [List.zip_cons_cons] using ih bs n

/-- A boolean holds on every pair of a zip exactly when it holds at every
index where both lists are defined. -/
theorem all_zip_iff (as : List α) (bs : List β) (p : α × β → Bool) :
    ((as.zip bs).all p = true) ↔
      ∀ (i : ℕ) (a : α) (b : β), as[i]? = some a → bs[i]? = some b → p (a, b) = true := by
  rw [List.all_eq_true]
  constructor
  · intro H i a b ha hb
    refine H (a, b) ?_
    rw [List.mem_iff_getElem?]
    exact ⟨i, by simp [zip_getElem?_eq, ha, hb]⟩
  · intro H x hx
    rw [List.mem_iff_getElem?] at hx
    obtain ⟨i, hi⟩ := hx
    rw [zip_getElem?_eq] at hi
    cases ha : as[i]? with
    | none => simp [ha] at hi
    | some a =>
      cases hb : bs[i]? with
      | none => simp [ha, hb] at hi
      | some b =>
        simp [ha, hb] at hi
        simpa [← hi] using H i a b ha hb

/-! ## Claim C5 — transition guards -/

/-- C5: `dismantle()` from a non-`Stable` state and `rebuild()` while
`Rebuilding` are silent no-ops leaving the whole engine state (voxel set,
positions, velocities, rotations included) unchanged, and `dismantle()`
from `Stable` immediately reports `Dismantling`. -/
theorem C5_transition_guards (s : EngineState) (rand : ℕ → ℚ)
    (T : List VoxelData) (floorY now : ℚ) :
    (s.state ≠ AppState.STABLE → dismantle s rand = s) ∧
    (s.state = AppState.REBUILDING → rebuild s T floorY now = s) ∧
    (s.state = AppState.STABLE → (dismantle s rand).state = AppState.DISMANTLING) := by
  refine ⟨fun h => ?_, fun h => ?_, fun h => ?_⟩
  · simp [dismantle, h]
  · simp [rebuild, h]
  · simp [dismantle, h]

/-- Concrete engine state in the `DISMANTLING` phase. -/
def exDismantling : EngineState :=
  { voxels := createVoxels [{ x := 0, y := 3, z := 0, color := 0xFF0000 }]
    rebuildTargets := [], rebuildStartTime := 0, state := AppState.DISMANTLING }

/-- Concrete engine state in the `REBUILDING` phase. -/
def exRebuilding : EngineState :=
  { voxels := createVoxels [{ x := 0, y := 3, z := 0, color := 0xFF0000 }]
    rebuildTargets := [{ x := 0, y := 0, z := 0, delay := 0, isRubble := false }]
    rebuildStartTime := 0, state := AppState.REBUILDING }

/-- Concrete engine state in the `STABLE` phase. -/
def exStable : EngineState :=
  { voxels := createVoxels [{ x := 0, y := 3, z := 0, color := 0xFF0000 }]
    rebuildTargets := [], rebuildStartTime := 0, state := AppState.STABLE }

/-- Witness for C5 at concrete states in each phase. -/
theorem C5_transition_guards_witness :
    exDismantling.state ≠ AppState.STABLE ∧
    dismantle exDismantling (fun _ => 0) = exDismantling ∧
    exRebuilding.state = AppState.REBUILDING ∧
    rebuild exRebuilding [] 0 0 = exRebuilding ∧
    exStable.state = AppState.STABLE ∧
    (dismantle exStable (fun _ => 0)).state = AppState.DISMANTLING :=
  ⟨by decide,
   (C5_transition_guards exDismantling (fun _ => 0) [] 0 0).1 (by decide),
   by decide,
   (C5_transition_guards exRebuilding (fun _ => 0) [] 0 0).2.1 (by decide),
   by decide,
   (C5_transition_guards exStable (fun _ => 0) [] 0 0).2.2 (by decide)⟩

/-! ## Claim C4 — dismantling physics step -/

/-- C4: on a physics tick in the `Dismantling` state, each voxel
independently has gravity `0.025` applied to its vertical velocity, its
position advanced by its velocity and its rotation by its angular velocity;
whenever the resulting vertical position is below `floorY + 0.5` it is
clamped there, the vertical velocity is multiplied by `-0.5`, the
horizontal velocities by `0.9` and the angular velocities by `0.8`. -/
theorem C4_dismantling_step (s : EngineState) (floorY now : ℚ)
    (hst : s.state = AppState.DISMANTLING) :
    ((updatePhysics s floorY now).voxels.length = s.voxels.length) ∧
    ∀ (i : ℕ) (v : SimulationVoxel), s.voxels[i]? = some v →
      ((v.y + (v.vy - 0.025) < floorY + 0.5 →
        (updatePhysics s floorY now).voxels[i]? = some
          { v with x := v.x + v.vx, y := floorY + 0.5, z := v.z + v.vz
                   rx := v.rx + v.rvx, ry := v.ry + v.rvy, rz := v.rz + v.rvz
                   vy := (v.vy - 0.025) * (-0.5), vx := v.vx * 0.9, vz := v.vz * 0.9
                   rvx := v.rvx * 0.8, rvy := v.rvy * 0.8, rvz := v.rvz * 0.8 }) ∧
      (floorY + 0.5 ≤ v.y + (v.vy - 0.025) →
        (updatePhysics s floorY now).voxels[i]? = some
          { v with x := v.x + v.vx, y := v.y + (v.vy - 0.025), z := v.z + v.vz
                   rx := v.rx + v.rvx, ry := v.ry + v.rvy, rz := v.rz + v.rvz
                   vy := v.vy - 0.025 })) := by
  constructor
  · simp [updatePhysics, hst]
  · intro i v hv
    have hmap : (updatePhysics s floorY now).voxels[i]? =
        some (stepVoxelDismantle floorY v) := by
      simp [updatePhysics, hst, hv]
    constructor
    · intro hlt
      rw [hmap]
      simp only [stepVoxelDismantle, if_pos hlt]
    · intro hge
      rw [hmap]
      simp only [stepVoxelDismantle, if_neg (not_lt.mpr hge)]

/-- The single voxel of the example states, as created by `createVoxels`. -/
def exVoxel0 : SimulationVoxel :=
  { id := 0, x := 0, y := 3, z := 0, color := Color.ofHex 0xFF0000
    vx := 0, vy := 0, vz := 0, rx := 0, ry := 0, rz := 0
    rvx := 0, rvy := 0, rvz := 0 }

/-- Witness for C4: the example voxel stays above the floor for one tick. -/
theorem C4_dismantling_step_witness :
    exDismantling.state = AppState.DISMANTLING ∧
    exDismantling.voxels[0]? = some exVoxel0 ∧
    (updatePhysics exDismantling 0 7).voxels[0]? = some
      { exVoxel0 with
        x := exVoxel0.x + exVoxel0.vx, y := exVoxel0.y + (exVoxel0.vy - 0.025)
        z := exVoxel0.z + exVoxel0.vz, rx := exVoxel0.rx + exVoxel0.rvx
        ry := exVoxel0.ry + exVoxel0.rvy, rz := exVoxel0.rz + exVoxel0.rvz
        vy := exVoxel0.vy - 0.025 } := by
  refine ⟨by decide, by decide, ?_⟩
  exact ((C4_dismantling_step exDismantling 0 7 (by decide)).2 0 exVoxel0
    (by decide)).2 (by norm_num [exVoxel0])

/-! ## Claim C10 — floor invariant after a dismantling tick -/

/-- C10: at the end of every dismantling physics tick, every voxel's
vertical position is at least `floorY + 0.5`, whatever its position and
velocity were before the tick. -/
theorem C10_floor_invariant (s : EngineState) (floorY now : ℚ)
    (hst : s.state = AppState.DISMANTLING) :
    ∀ w ∈ (updatePhysics s floorY now).voxels, floorY + 0.5 ≤ w.y := by
  intro w hw
  rw [updatePhysics] at hw
  rw [hst] at hw
  simp only [List.mem_map] at hw
  obtain ⟨v, _, rfl⟩ := hw
  rw [stepVoxelDismantle]
  split
  · simp
  · simpa using le_of_not_lt (by assumption)

/-- Witness for C10 at a concrete dismantling state. -/
theorem C10_floor_invariant_witness :
    exDismantling.state = AppState.DISMANTLING ∧
    ∀ w ∈ (updatePhysics exDismantling 0 7).voxels, (0 : ℚ) + 0.5 ≤ w.y :=
  ⟨by decide, C10_floor_invariant exDismantling 0 7 (by decide)⟩

/-! ## Claim C2 — rebuilding animator tick -/

/-- Snapping after easing only overrides the six fields the easing moved,
so the snapped voxel is the original voxel with position set to the target
and rotation zeroed. -/
theorem snap_easeVoxel (v : SimulationVoxel) (t : RebuildTarget) :
    ({ easeVoxel v t with x := t.x, y := t.y, z := t.z, rx := 0, ry := 0, rz := 0 }
      : SimulationVoxel) =
    { v with x := t.x, y := t.y, z := t.z, rx := 0, ry := 0, rz := 0 } := by
  cases v
  simp [easeVoxel]

/-- The animator's per-pair `allDone` contribution spelled out: rubble is
always done; otherwise the voxel is done exactly when its delay has elapsed
and its post-move squared distance does not exceed `0.01`. -/
theorem voxelDone_eq_true_iff (elapsed : ℚ) (vt : SimulationVoxel × RebuildTarget) :
    voxelDone elapsed vt = true ↔
      (vt.2.isRubble = true ∨ (vt.2.delay ≤ elapsed ∧
        targetDist2 (easeVoxel vt.1 vt.2) vt.2 ≤ 0.01)) := by
  rw [voxelDone]
  split
  · next hr => simp [hr]
  · next hr =>
    split
    · next hd => simp [hr, not_le.mpr hd]
    · next hd => simp [hr, not_lt.mp hd, not_lt, decide_eq_true_iff, gt_iff_lt]

/-- C2: on an animator tick in the `Rebuilding` state, a non-rubble voxel
still inside its start delay does not move and blocks completion; past its
delay its position is eased a `0.12` fraction toward the target and its
rotation a `0.12` fraction toward zero per axis, with an exact snap onto
the target (rotation zeroed) once the post-move squared distance is within
`0.01`; the state auto-transitions to `Stable` exactly when every non-rubble
voxel has converged, rubble voxels never blocking completion. -/
theorem C2_rebuilding_step (s : EngineState) (floorY now : ℚ)
    (hst : s.state = AppState.REBUILDING)
    (hlen : s.rebuildTargets.length = s.voxels.length) :
    ((updatePhysics s floorY now).voxels.length = s.voxels.length) ∧
    (∀ (i : ℕ) (v : SimulationVoxel) (t : RebuildTarget),
      s.voxels[i]? = some v → s.rebuildTargets[i]? = some t →
      t.isRubble = false →
        ((now - s.rebuildStartTime < t.delay →
           (updatePhysics s floorY now).voxels[i]? = some v ∧
           (updatePhysics s floorY now).state ≠ AppState.STABLE) ∧
         (t.delay ≤ now - s.rebuildStartTime →
           ((targetDist2 (easeVoxel v t) t ≤ 0.01 →
              (updatePhysics s floorY now).voxels[i]? = some
                { v with x := t.x, y := t.y, z := t.z, rx := 0, ry := 0, rz := 0 }) ∧
            (0.01 < targetDist2 (easeVoxel v t) t →
              (updatePhysics s floorY now).voxels[i]? = some (easeVoxel v t)))))) ∧
    ((updatePhysics s floorY now).state = AppState.STABLE ↔
      ∀ (i : ℕ) (v : SimulationVoxel) (t : RebuildTarget),
        s.voxels[i]? = some v → s.rebuildTargets[i]? = some t →
        t.isRubble = true ∨ (t.delay ≤ now - s.rebuildStartTime ∧
          targetDist2 (easeVoxel v t) t ≤ 0.01)) := by
  have hu : updatePhysics s floorY now =
      { s with
        voxels := (s.voxels.zip s.rebuildTargets).map
          (stepVoxelRebuild (now - s.rebuildStartTime)),
        state := if (s.voxels.zip s.rebuildTargets).all
            (voxelDone (now - s.rebuildStartTime)) then AppState.STABLE
          else AppState.REBUILDING } := by
    rw [updatePhysics, hst]
  refine ⟨?_, ?_, ?_⟩
  · rw [hu]
    simp [List.length_zip, hlen]
  · intro i v t hv ht hrub
    have hpair : (s.voxels.zip s.rebuildTargets)[i]? = some (v, t) := by
      rw [zip_getElem?_eq, hv, ht]
      rfl
    have hget : (updatePhysics s floorY now).voxels[i]? =
        some (stepVoxelRebuild (now - s.rebuildStartTime) (v, t)) := by
      rw [hu]
      simp only [List.getElem?_map, hpair]
      rfl
    constructor
    · intro hdel
      constructor
      · rw [hget, stepVoxelRebuild]
        simp [hrub, hdel]
      · have hdone : voxelDone (now - s.rebuildStartTime) (v, t) = false := by
          rw [voxelDone]
          simp [hrub, hdel]
        rw [hu]
        simp only
        intro hif
        split at hif
        · next hall =>
            rw [List.all_eq_true] at hall
            have := hall (v, t) (List.mem_iff_getElem?.mpr ⟨i, hpair⟩)
            rw [hdone] at this
            exact Bool.false_ne_true this
        · exact AppState.noConfusion hif
    · intro hdel
      have hstep : stepVoxelRebuild (now - s.rebuildStartTime) (v, t) =
          (let w := easeVoxel v t
           if targetDist2 w t > 0.01 then w
           else { w with x := t.x, y := t.y, z := t.z, rx := 0, ry := 0, rz := 0 }) := by
        rw [stepVoxelRebuild]
        simp [hrub, not_lt.mpr hdel]
      constructor
      · intro hnear
        rw [hget, hstep]
        simp only [gt_iff_lt, not_lt.mpr hnear, if_false, if_neg (not_lt.mpr hnear)]
        rw [snap_easeVoxel]
      · intro hfar
        rw [hget, hstep]
        simp only [gt_iff_lt, if_pos hfar]
  · rw [hu]
    simp only
    constructor
    · intro hif i v t hv ht
      have hall : (s.voxels.zip s.rebuildTargets).all
          (voxelDone (now - s.rebuildStartTime)) = true := by
        by_contra hno
        rw [if_neg hno] at hif
        exact AppState.noConfusion hif
      rw [all_zip_iff] at hall
      have := hall i v t hv ht
      rwa [voxelDone_eq_true_iff] at this
    · intro hconv
      rw [if_pos ?_]
      rw [all_zip_iff]
      intro i v t hv ht
      rw [voxelDone_eq_true_iff]
      exact hconv i v t hv ht

/-- Concrete rebuilding state for the C2 witness: one voxel already past
its delay and close to its target, one rubble voxel. -/
def exRebuilding2 : EngineState :=
  { voxels :=
      [{ exVoxel0 with x := 5, y := 1, z := 0 },
       { exVoxel0 with id := 1, x := 9, y := 1, z := 4 }]
    rebuildTargets :=
      [{ x := 5, y := 1.05, z := 0, delay := 10, isRubble := false },
       { x := 9, y := 1, z := 4, delay := 0, isRubble := true }]
    rebuildStartTime := 0, state := AppState.REBUILDING }

/-- Witness for C2: with 20 ms elapsed, the non-rubble voxel is past its
delay and inside the snap threshold, so it snaps onto the target, and the
whole state converges to `Stable` on this tick. -/
theorem C2_rebuilding_step_witness :
    exRebuilding2.state = AppState.REBUILDING ∧
    exRebuilding2.rebuildTargets.length = exRebuilding2.voxels.length ∧
    (updatePhysics exRebuilding2 0 20).voxels[0]? = some
      { ({ exVoxel0 with x := 5, y := 1, z := 0 } : SimulationVoxel) with
        x := 5, y := 1.05, z := 0, rx := 0, ry := 0, rz := 0 } ∧
    (updatePhysics exRebuilding2 0 20).state = AppState.STABLE := by
  refine ⟨by decide, by decide, ?_, ?_⟩
  · exact (((C2_rebuilding_step exRebuilding2 0 20 (by decide) (by decide)).2.1 0
      { exVoxel0 with x := 5, y := 1, z := 0 }
      { x := 5, y := 1.05, z := 0, delay := 10, isRubble := false }
      (by decide) (by decide) (by decide)).2 (by decide)).1 (by decide)
  · refine ((C2_rebuilding_step exRebuilding2 0 20 (by decide) (by decide)).2.2).2 ?_
    have hall : (exRebuilding2.voxels.zip exRebuilding2.rebuildTargets).all
        (voxelDone (20 - exRebuilding2.rebuildStartTime)) = true := by decide
    intro i v t hv ht
    have hp := (all_zip_iff _ _ _).mp hall i v t hv ht
    rwa [voxelDone_eq_true_iff] at hp

/-! ## Claim C6 — perceptual color distance -/

/-- The spec's perceptual color distance, squared: a weighted Euclidean
distance over normalized 0–1 RGB channels, the channel differences scaled
by the luma-like weights `0.3` (red), `0.59` (green), `0.11` (blue). -/
def specPerceptualDistSq (a b : Color) : ℚ :=
  (0.3 * (a.r - b.r)) ^ 2 + (0.59 * (a.g - b.g)) ^ 2 + (0.11 * (a.b - b.b)) ^ 2

/-- The let-free form of the squared distance. -/
theorem getColorDist2_eq (c1 : Color) (hex2 : ℕ) :
    getColorDist2 c1 hex2 =
      ((c1.r - (Color.ofHex hex2).r) * 0.3) * ((c1.r - (Color.ofHex hex2).r) * 0.3) +
      ((c1.g - (Color.ofHex hex2).g) * 0.59) * ((c1.g - (Color.ofHex hex2).g) * 0.59) +
      ((c1.b - (Color.ofHex hex2).b) * 0.11) * ((c1.b - (Color.ofHex hex2).b) * 0.11) := rfl

/-- The matcher's squared distance is nonnegative. -/
theorem getColorDist2_nonneg (c1 : Color) (hex2 : ℕ) : 0 ≤ getColorDist2 c1 hex2 := by
  rw [getColorDist2_eq]
  nlinarith [mul_self_nonneg ((c1.r - (Color.ofHex hex2).r) * 0.3),
    mul_self_nonneg ((c1.g - (Color.ofHex hex2).g) * 0.59),
    mul_self_nonneg ((c1.b - (Color.ofHex hex2).b) * 0.11)]

/-- Channels unpacked from a hex value are normalized to `[0, 1]`. -/
theorem ofHex_channels_bounded (h : ℕ) :
    (0 ≤ (Color.ofHex h).r ∧ (Color.ofHex h).r ≤ 1) ∧
    (0 ≤ (Color.ofHex h).g ∧ (Color.ofHex h).g ≤ 1) ∧
    (0 ≤ (Color.ofHex h).b ∧ (Color.ofHex h).b ≤ 1) := by
  have gen : ∀ n : ℕ, 0 ≤ ((n % 256 : ℕ) : ℚ) / 255 ∧ ((n % 256 : ℕ) : ℚ) / 255 ≤ 1 := by
    intro n
    constructor
    · positivity
    · rw [div_le_one (by norm_num)]
      have : n % 256 < 256 := Nat.mod_lt _ (by norm_num)
      exact_mod_cast Nat.le_of_lt_succ this
  exact ⟨⟨(gen _).1, (gen _).2⟩, ⟨(gen _).1, (gen _).2⟩, ⟨(gen _).1, (gen _).2⟩⟩

/-- C6: the distance used by the matcher is the weighted Euclidean distance
with luma-like weights 0.3/0.59/0.11 over normalized 0–1 channel values:
its square (the quantity the embedding carries) equals the spec's weighted
sum of squares, the unpacked channels are normalized to `[0, 1]`, and the
square root the source takes preserves every strict comparison the matcher
makes. -/
theorem C6_color_distance (c1 : Color) (hex2 : ℕ) :
    getColorDist2 c1 hex2 = specPerceptualDistSq c1 (Color.ofHex hex2) ∧
    ((0 ≤ (Color.ofHex hex2).r ∧ (Color.ofHex hex2).r ≤ 1) ∧
     (0 ≤ (Color.ofHex hex2).g ∧ (Color.ofHex hex2).g ≤ 1) ∧
     (0 ≤ (Color.ofHex hex2).b ∧ (Color.ofHex hex2).b ≤ 1)) ∧
    ∀ (c1' : Color) (hex2' : ℕ),
      (Real.sqrt ((getColorDist2 c1 hex2 : ℚ) : ℝ) <
          Real.sqrt ((getColorDist2 c1' hex2' : ℚ) : ℝ) ↔
        getColorDist2 c1 hex2 < getColorDist2 c1' hex2') := by
  refine ⟨?_, ofHex_channels_bounded hex2, ?_⟩
  · rw [getColorDist2, specPerceptualDistSq]
    ring
  · intro c1' hex2'
    rw [Real.sqrt_lt_sqrt_iff (by exact_mod_cast getColorDist2_nonneg c1 hex2)]
    exact_mod_cast Iff.rfl

/-! ## Claim C8 — load/snapshot round trip -/

/-- Packing after unpacking restores any 24-bit color value. -/
theorem getHex_ofHex (h : ℕ) (hh : h < 16777216) :
    (Color.ofHex h).getHex = h := by
  have comp : ∀ a : ℕ, a ≤ 255 → roundClamp255 ((a : ℚ) / 255 * 255) = a := by
    intro a ha
    have h255 : ((255 : ℚ)) ≠ 0 := by norm_num
    rw [div_mul_cancel₀ _ h255, roundClamp255]
    have hmin : min ((a : ℚ)) 255 = (a : ℚ) := by
      rw [min_eq_left]
      exact_mod_cast ha
    have hmax : max 0 ((a : ℚ)) = (a : ℚ) := by
      rw [max_eq_right]
      positivity
    rw [hmin, hmax]
    have : ((a : ℚ) + 1 / 2) = ((a : ℤ) : ℚ) + 1 / 2 := by push_cast; ring
    rw [this, Int.floor_int_add]
    norm_num
  have hb : ∀ n : ℕ, n % 256 ≤ 255 := by
    intro n
    have : n % 256 < 256 := Nat.mod_lt _ (by norm_num)
    omega
  rw [Color.getHex, Color.ofHex]
  simp only
  rw [comp _ (hb _), comp _ (hb _), comp _ (hb _)]
  omega

/-- Snapshot of freshly created voxels, element by element. -/
theorem createVoxelsAux_snapshot (D : List VoxelData) (i : ℕ)
    (hD : ∀ v ∈ D, v.color < 16777216) :
    (createVoxelsAux i D).map
      (fun v => ({ x := v.x, y := v.y, z := v.z, color := v.color.getHex } : VoxelData))
      = D := by
  induction D generalizing i with
  | nil => rfl
  | cons v rest ih =>
    obtain ⟨vx, vy, vz, vc⟩ := v
    have hc : vc < 16777216 := hD _ (List.mem_cons_self _ _)
    rw [createVoxelsAux, List.map_cons]
    rw [ih (i + 1) (fun w hw => hD w (List.mem_cons_of_mem _ hw))]
    simp only
    rw [getHex_ofHex vc hc]

/-- C8: for valid voxel data (24-bit colors), loading a model and taking a
snapshot returns exactly the input sequence: same length, same order, exact
coordinates, identical colors. -/
theorem C8_load_snapshot_roundtrip (s : EngineState) (D : List VoxelData)
    (hD : ∀ v ∈ D, v.color < 16777216) :
    getVoxelData (loadInitialModel s D) = D := by
  rw [getVoxelData, loadInitialModel]
  simp only
  rw [createVoxels]
  exact createVoxelsAux_snapshot D 0 hD

/-- Witness for C8 on a concrete two-voxel model. -/
theorem C8_load_snapshot_roundtrip_witness :
    (∀ v ∈ [({ x := 1, y := 2, z := 3, color := 0x123456 } : VoxelData),
            { x := -4, y := 0.5, z := 0, color := 0xFFFFFF }], v.color < 16777216) ∧
    getVoxelData (loadInitialModel exStable
      [{ x := 1, y := 2, z := 3, color := 0x123456 },
       { x := -4, y := 0.5, z := 0, color := 0xFFFFFF }]) =
      [{ x := 1, y := 2, z := 3, color := 0x123456 },
       { x := -4, y := 0.5, z := 0, color := 0xFFFFFF }] :=
  ⟨by decide,
   C8_load_snapshot_roundtrip exStable
     [{ x := 1, y := 2, z := 3, color := 0x123456 },
      { x := -4, y := 0.5, z := 0, color := 0xFFFFFF }] (by decide)⟩

/-! ## Claim C9 — JSON serialization shape -/

/-- Indexing into the serialization, expressed through the voxel list. -/
theorem getJsonDataAux_getElem? (vs : List SimulationVoxel) (k i : ℕ) :
    (getJsonDataAux k vs)[i]? = vs[i]?.map fun v =>
      ({ id := k + i, x := toFixed2 v.x, y := toFixed2 v.y, z := toFixed2 v.z
         c := "#" ++ v.color.getHexString } : JsonVoxel) := by
  induction vs generalizing k i with
  | nil => simp [getJsonDataAux]
  | cons v rest ih =>
    cases i with
    | zero => simp [getJsonDataAux]
    | succ n =>
      rw [getJsonDataAux]
      simp only [List.getElem?_cons_succ]
      rw [ih (k + 1) n]
      have : k + 1 + n = k + (n + 1) := by omega
      rw [this]

/-- Length of the serialization. -/
theorem getJsonDataAux_length (vs : List SimulationVoxel) (k : ℕ) :
    (getJsonDataAux k vs).length = vs.length := by
  induction vs generalizing k with
  | nil => rfl
  | cons v rest ih =>
    rw [getJsonDataAux, List.length_cons, List.length_cons, ih]

/-- `toFixed(2)` really rounds to a multiple of `1/100` within half a
hundredth of the input. -/
theorem toFixed2_rounds (q : ℚ) :
    ∃ k : ℤ, toFixed2 q = (k : ℚ) / 100 ∧ |toFixed2 q - q| ≤ 1 / 200 := by
  refine ⟨⌊q * 100 + 1 / 2⌋, rfl, ?_⟩
  have h1 : (⌊q * 100 + 1 / 2⌋ : ℚ) ≤ q * 100 + 1 / 2 := Int.floor_le _
  have h2 : q * 100 + 1 / 2 < (⌊q * 100 + 1 / 2⌋ : ℚ) + 1 := Int.lt_floor_add_one _
  rw [toFixed2, abs_le]
  constructor
  · linarith
  · linarith

/-- Every hexadecimal digit character is a digit or a lowercase `a`–`f`. -/
theorem hexChar_is_hex_digit :
    ∀ n < 16, (hexChar n).isDigit = true ∨ ('a' ≤ hexChar n ∧ hexChar n ≤ 'f') := by
  decide

/-- C9: the neutral serialization is one record per voxel in index order,
with `id` equal to the voxel index, each coordinate rounded to two decimal
places (an integer number of hundredths within half a hundredth of the
stored coordinate), and the color a string of `'#'` followed by exactly six
lowercase hexadecimal digits. -/
theorem C9_serialization_shape (s : EngineState) :
    (getJsonData s).length = s.voxels.length ∧
    ∀ (i : ℕ) (v : SimulationVoxel), s.voxels[i]? = some v →
      ∃ r : JsonVoxel, (getJsonData s)[i]? = some r ∧
        r.id = i ∧
        (∃ k : ℤ, r.x = (k : ℚ) / 100 ∧ |r.x - v.x| ≤ 1 / 200) ∧
        (∃ k : ℤ, r.y = (k : ℚ) / 100 ∧ |r.y - v.y| ≤ 1 / 200) ∧
        (∃ k : ℤ, r.z = (k : ℚ) / 100 ∧ |r.z - v.z| ≤ 1 / 200) ∧
        ∃ ds : List Char, r.c.data = '#' :: ds ∧ ds.length = 6 ∧
          ∀ ch ∈ ds, ch.isDigit = true ∨ ('a' ≤ ch ∧ ch ≤ 'f') := by
  constructor
  · rw [getJsonData]
    exact getJsonDataAux_length s.voxels 0
  · intro i v hv
    refine ⟨_, by rw [getJsonData, getJsonDataAux_getElem?, hv]; rfl, ?_, ?_, ?_, ?_, ?_⟩
    · simp
    · exact toFixed2_rounds v.x
    · exact toFixed2_rounds v.y
    · exact toFixed2_rounds v.z
    · refine ⟨[hexChar (v.color.getHex / 1048576 % 16),
               hexChar (v.color.getHex / 65536 % 16),
               hexChar (v.color.getHex / 4096 % 16),
               hexChar (v.color.getHex / 256 % 16),
               hexChar (v.color.getHex / 16 % 16),
               hexChar (v.color.getHex % 16)], ?_, rfl, ?_⟩
      · rfl
      · intro ch hch
        simp only [List.mem_cons, List.not_mem_nil, or_false] at hch
        rcases hch with h | h | h | h | h | h <;>
          · subst h
            exact hexChar_is_hex_digit _ (Nat.mod_lt _ (by norm_num))

/-! ## Claim C7 — the early exit is a pure optimization -/

/-- When no untaken entry of the remaining list is a near-exact match, the
early-exiting scan and the full scan agree from any accumulator state. -/
theorem matchScanAux_eq_full_of_no_near (tc : ℕ) (l : List AvailEntry)
    (hno : ∀ e ∈ l, e.taken = false → ¬ getColorDist2 e.color tc < 1 / 10000) :
    ∀ (bd : ℚ) (best : Option ℕ),
      matchScanAux tc l bd best = matchScanFullAux tc l bd best := by
  induction l with
  | nil => intro bd best; rfl
  | cons e rest ih =>
    intro bd best
    have ihr := ih fun x hx => hno x (List.mem_cons_of_mem _ hx)
    by_cases ht : e.taken = true
    · rw [matchScanAux, matchScanFullAux, if_pos ht, if_pos ht, ihr]
    · have hf : e.taken = false := Bool.eq_false_iff.mpr ht
      have hnear : ¬ getColorDist2 e.color tc < 1 / 10000 :=
        hno e (List.mem_cons_self _ _) hf
      by_cases hd : getColorDist2 e.color tc < bd
      · rw [matchScanAux, matchScanFullAux, if_neg ht, if_neg ht, if_pos hd,
            if_pos hd, if_neg hnear, ihr]
      · rw [matchScanAux, matchScanFullAux, if_neg ht, if_neg ht, if_neg hd,
            if_neg hd, ihr]

/-- C7: when no not-yet-taken source voxel is within the early-exit epsilon
(squared distance below `0.01² = 1/10000`, i.e. distance below `0.01`) of
the target color, the matcher's early-exiting inner scan selects exactly
the source that a full scan with no early exit would. -/
theorem C7_early_exit_is_optimization (avail : List AvailEntry) (tc : ℕ)
    (hno : ∀ e ∈ avail, e.taken = false → ¬ getColorDist2 e.color tc < 1 / 10000) :
    matchScan avail tc = matchScanFull avail tc := by
  rw [matchScan, matchScanFull]
  exact matchScanAux_eq_full_of_no_near tc avail hno 99980001 none

/-- Concrete available list with no near-exact match for pure green. -/
def exAvail : List AvailEntry :=
  [{ index := 0, color := Color.ofHex 0xFF0000, taken := false },
   { index := 1, color := Color.ofHex 0x0000FF, taken := false },
   { index := 2, color := Color.ofHex 0x00CC00, taken := false }]

/-- Witness for C7: scanning `exAvail` for pure green, where every untaken
entry is at least the epsilon away. -/
theorem C7_early_exit_is_optimization_witness :
    (∀ e ∈ exAvail, e.taken = false →
      ¬ getColorDist2 e.color 0x00FF00 < 1 / 10000) ∧
    matchScan exAvail 0x00FF00 = matchScanFull exAvail 0x00FF00 :=
  ⟨by decide, C7_early_exit_is_optimization exAvail 0x00FF00 (by decide)⟩

/-! ## Claim C1 — per-target selection rule of the matcher -/

/-- Near-exact-match test on an available entry: untaken and within the
early-exit epsilon of the target color. -/
def nearPred (tc : ℕ) (e : AvailEntry) : Bool :=
  !e.taken && decide (getColorDist2 e.color tc < 1 / 10000)

/-- Combination step of the specification's minimal-distance choice: an
untaken entry displaces the best of the later entries only when the later
best is strictly closer, so ties go to the earlier entry. -/
def specBestCons (tc : ℕ) (e : AvailEntry) : Option AvailEntry → Option AvailEntry
  | none => if e.taken then none else some e
  | some b =>
      if e.taken then some b
      else if getColorDist2 b.color tc < getColorDist2 e.color tc then some b
      else some e

/-- The specification's minimal-distance choice: the untaken entry with
minimal color distance to the target, ties broken in favor of the earlier
entry (the lower source index). -/
def specBest (tc : ℕ) : List AvailEntry → Option AvailEntry
  | [] => none
  | e :: rest => specBestCons tc e (specBest tc rest)

/-- The per-target selection the matcher actually implements, stated
declaratively: the first untaken source within the early-exit epsilon of
the target color if one exists, otherwise the untaken source of minimal
distance with ties broken by lowest index. -/
def specChoose (avail : List AvailEntry) (tc : ℕ) : Option ℕ :=
  match avail.find? (nearPred tc) with
  | some e => some e.index
  | none => (specBest tc avail).map AvailEntry.index

/-- The minimal-distance choice restricted to entries strictly below a
distance threshold. -/
def specBestLt (tc : ℕ) (l : List AvailEntry) (bd : ℚ) : Option AvailEntry :=
  specBest tc (l.filter fun e => decide (getColorDist2 e.color tc < bd))

/-- An untaken near-exact entry satisfies the near predicate. -/
theorem nearPred_true (tc : ℕ) (e : AvailEntry) (hf : e.taken = false)
    (hnear : getColorDist2 e.color tc < 1 / 10000) : nearPred tc e = true := by
  rw [nearPred, hf]
  exact congrArg (Bool.and true) (decide_eq_true hnear)

/-- A taken entry fails the near predicate. -/
theorem nearPred_false_of_taken (tc : ℕ) (e : AvailEntry) (ht : e.taken = true) :
    ¬ nearPred tc e = true := by
  rw [nearPred, ht]
  exact fun h => Bool.false_ne_true (by simpa using h)

/-- An entry at or beyond the epsilon fails the near predicate. -/
theorem nearPred_false_of_far (tc : ℕ) (e : AvailEntry)
    (hfar : ¬ getColorDist2 e.color tc < 1 / 10000) : ¬ nearPred tc e = true := by
  intro hp
  rw [nearPred, Bool.and_eq_true, decide_eq_true_iff] at hp
  exact hfar hp.2

/-- Unfolding of the choice step on a taken entry. -/
theorem specBestCons_taken (tc : ℕ) (e : AvailEntry) (r : Option AvailEntry)
    (ht : e.taken = true) : specBestCons tc e r = r := by
  cases r with
  | none => rw [specBestCons, if_pos ht]
  | some b => rw [specBestCons, if_pos ht]

/-- Unfolding of the choice step on an untaken entry with no later best. -/
theorem specBestCons_none (tc : ℕ) (e : AvailEntry) (ht : ¬ e.taken = true) :
    specBestCons tc e none = some e := by
  rw [specBestCons, if_neg ht]

/-- Unfolding of the choice step on an untaken entry against a later best. -/
theorem specBestCons_some (tc : ℕ) (e b : AvailEntry) (ht : ¬ e.taken = true) :
    specBestCons tc e (some b) =
      if getColorDist2 b.color tc < getColorDist2 e.color tc then some b
      else some e := by
  rw [specBestCons, if_neg ht]

/-- If the remaining list contains a near-exact match, the early-exiting
scan stops at the first one, from any accumulator state whose running best
distance is still at least the epsilon. -/
theorem matchScanAux_of_find_near (tc : ℕ) (l : List AvailEntry) (e : AvailEntry)
    (hfind : l.find? (nearPred tc) = some e) :
    ∀ (bd : ℚ), 1 / 10000 ≤ bd → ∀ (best : Option ℕ),
      matchScanAux tc l bd best = some e.index := by
  induction l with
  | nil => simp at hfind
  | cons a rest ih =>
    intro bd hbd best
    by_cases ht : a.taken = true
    · rw [List.find?_cons_of_neg _ (nearPred_false_of_taken tc a ht)] at hfind
      rw [matchScanAux, if_pos ht]
      exact ih hfind bd hbd best
    · have hf : a.taken = false := Bool.eq_false_iff.mpr ht
      by_cases hnear : getColorDist2 a.color tc < 1 / 10000
      · rw [List.find?_cons_of_pos _ (nearPred_true tc a hf hnear)] at hfind
        obtain rfl : a = e := Option.some.inj hfind
        have hlt : getColorDist2 a.color tc < bd := lt_of_lt_of_le hnear hbd
        rw [matchScanAux, if_neg ht, if_pos hlt, if_pos hnear]
      · rw [List.find?_cons_of_neg _ (nearPred_false_of_far tc a hnear)] at hfind
        by_cases hlt : getColorDist2 a.color tc < bd
        · rw [matchScanAux, if_neg ht, if_pos hlt, if_neg hnear]
          exact ih hfind _ (le_of_not_lt hnear) _
        · rw [matchScanAux, if_neg ht, if_neg hlt]
          exact ih hfind bd hbd best

/-- Lowering the threshold of the restricted minimal-distance choice keeps
the same winner when it still clears the lower threshold and drops to
`none` otherwise. -/
theorem specBestLt_mono (tc : ℕ) (l : List AvailEntry) :
    ∀ (cLo cHi : ℚ), cLo ≤ cHi →
      specBestLt tc l cLo = (specBestLt tc l cHi).bind
        (fun e => if getColorDist2 e.color tc < cLo then some e else none) := by
  induction l with
  | nil => intro cLo cHi _; simp [specBestLt, specBest]
  | cons a rest ih =>
    intro cLo cHi hcc
    have ihx := ih cLo cHi hcc
    rw [specBestLt, specBestLt] at ihx
    by_cases haLo : getColorDist2 a.color tc < cLo
    · have haHi : getColorDist2 a.color tc < cHi := lt_of_lt_of_le haLo hcc
      rw [specBestLt, specBestLt, List.filter_cons_of_pos (by simp [haLo]),
          List.filter_cons_of_pos (by simp [haHi]), specBest, specBest]
      by_cases ht : a.taken = true
      · rw [specBestCons_taken tc a _ ht, specBestCons_taken tc a _ ht]
        exact ihx
      · cases hB : specBest tc (rest.filter fun e =>
            decide (getColorDist2 e.color tc < cHi)) with
        | none =>
            rw [hB] at ihx
            rw [ihx]
            simp only [Option.none_bind]
            rw [specBestCons_none tc a ht]
            simp [haLo]
        | some b =>
            rw [hB] at ihx
            rw [ihx]
            simp only [Option.some_bind]
            rw [specBestCons_some tc a b ht]
            by_cases hbLo : getColorDist2 b.color tc < cLo
            · rw [if_pos hbLo, specBestCons_some tc a b ht]
              by_cases hba : getColorDist2 b.color tc < getColorDist2 a.color tc
              · rw [if_pos hba]
                simp [hbLo]
              · rw [if_neg hba]
                simp [haLo]
            · have hba : ¬ getColorDist2 b.color tc < getColorDist2 a.color tc :=
                fun hlt => hbLo (lt_trans hlt haLo)
              rw [if_neg hbLo, specBestCons_none tc a ht, if_neg hba]
              simp [haLo]
    · by_cases haHi : getColorDist2 a.color tc < cHi
      · rw [specBestLt, specBestLt, List.filter_cons_of_neg (by simp [haLo]),
            List.filter_cons_of_pos (by simp [haHi]), specBest]
        by_cases ht : a.taken = true
        · rw [specBestCons_taken tc a _ ht]
          exact ihx
        · cases hB : specBest tc (rest.filter fun e =>
              decide (getColorDist2 e.color tc < cHi)) with
          | none =>
              rw [hB] at ihx
              rw [ihx]
              simp only [Option.none_bind]
              rw [specBestCons_none tc a ht]
              simp [haLo]
          | some b =>
              rw [hB] at ihx
              rw [ihx, specBestCons_some tc a b ht]
              by_cases hba : getColorDist2 b.color tc < getColorDist2 a.color tc
              · rw [if_pos hba]
              · have hbLo : ¬ getColorDist2 b.color tc < cLo :=
                  fun hlt => haLo (lt_of_le_of_lt (le_of_not_lt hba) hlt)
                rw [if_neg hba]
                simp [haLo, hbLo]
      · rw [specBestLt, specBestLt, List.filter_cons_of_neg (by simp [haLo]),
            List.filter_cons_of_neg (by simp [haHi])]
        exact ihx

/-- The full (non-early-exiting) scan computes the restricted
minimal-distance choice: the untaken entry of minimal distance below the
running best distance, ties to the earliest, falling back to the running
best index. -/
theorem matchScanFullAux_eq_specBestLt (tc : ℕ) (l : List AvailEntry) :
    ∀ (bd : ℚ) (best : Option ℕ),
      matchScanFullAux tc l bd best =
        match specBestLt tc l bd with
        | none => best
        | some e => some e.index := by
  induction l with
  | nil => intro bd best; simp [specBestLt, specBest, matchScanFullAux]
  | cons a rest ih =>
    intro bd best
    by_cases ht : a.taken = true
    · rw [matchScanFullAux, if_pos ht, ih bd best]
      have hs : specBestLt tc (a :: rest) bd = specBestLt tc rest bd := by
        by_cases hda : getColorDist2 a.color tc < bd
        · rw [specBestLt, List.filter_cons_of_pos (by simp [hda]), specBest,
              specBestCons_taken tc a _ ht, specBestLt]
        · rw [specBestLt, List.filter_cons_of_neg (by simp [hda]), specBestLt]
      rw [hs]
    · by_cases hda : getColorDist2 a.color tc < bd
      · rw [matchScanFullAux, if_neg ht, if_pos hda,
            ih (getColorDist2 a.color tc) (some a.index)]
        have hmono := specBestLt_mono tc rest (getColorDist2 a.color tc) bd
          (le_of_lt hda)
        have hcons : specBestLt tc (a :: rest) bd =
            specBestCons tc a (specBestLt tc rest bd) := by
          rw [specBestLt, List.filter_cons_of_pos (by simp [hda]), specBest,
              specBestLt]
        rw [hmono, hcons]
        cases hB : specBestLt tc rest bd with
        | none =>
            rw [specBestCons_none tc a ht]
            simp
        | some b =>
            rw [specBestCons_some tc a b ht]
            by_cases hba : getColorDist2 b.color tc < getColorDist2 a.color tc
            · rw [if_pos hba]
              simp [hba]
            · rw [if_neg hba]
              simp [hba]
      · rw [matchScanFullAux, if_neg ht, if_neg hda, ih bd best]
        have hs : specBestLt tc (a :: rest) bd = specBestLt tc rest bd := by
          rw [specBestLt, List.filter_cons_of_neg (by simp [hda]), specBestLt]
        rw [hs]

/-- Color channels normalized to the unit interval. -/
def ChannelsBounded (c : Color) : Prop :=
  0 ≤ c.r ∧ c.r ≤ 1 ∧ 0 ≤ c.g ∧ c.g ≤ 1 ∧ 0 ≤ c.b ∧ c.b ≤ 1

instance (c : Color) : Decidable (ChannelsBounded c) := by
  rw [ChannelsBounded]
  infer_instance

/-- For a source color with normalized channels, the squared distance to
any unpacked target color is below the matcher's initial `9999²`. -/
theorem getColorDist2_lt_init (c : Color) (tc : ℕ) (hc : ChannelsBounded c) :
    getColorDist2 c tc < 99980001 := by
  obtain ⟨h1, h2, h3, h4, h5, h6⟩ := hc
  obtain ⟨⟨t1, t2⟩, ⟨t3, t4⟩, ⟨t5, t6⟩⟩ := ofHex_channels_bounded tc
  rw [getColorDist2_eq]
  have e1 : ((c.r - (Color.ofHex tc).r) * 0.3) * ((c.r - (Color.ofHex tc).r) * 0.3) ≤ 1 := by
    nlinarith
  have e2 : ((c.g - (Color.ofHex tc).g) * 0.59) * ((c.g - (Color.ofHex tc).g) * 0.59) ≤ 1 := by
    nlinarith
  have e3 : ((c.b - (Color.ofHex tc).b) * 0.11) * ((c.b - (Color.ofHex tc).b) * 0.11) ≤ 1 := by
    nlinarith
  linarith

/-- On an available list of normalized colors, the source's early-exiting
scan and the declarative selection rule agree. -/
theorem matchScan_eq_specChoose (avail : List AvailEntry) (tc : ℕ)
    (hbound : ∀ e ∈ avail, ChannelsBounded e.color) :
    matchScan avail tc = specChoose avail tc := by
  rw [matchScan, specChoose]
  cases hfind : avail.find? (nearPred tc) with
  | some e =>
      exact matchScanAux_of_find_near tc avail e hfind 99980001 (by norm_num) none
  | none =>
      have hno : ∀ e ∈ avail, e.taken = false →
          ¬ getColorDist2 e.color tc < 1 / 10000 := by
        intro e he hf hlt
        exact List.find?_eq_none.mp hfind e he (nearPred_true tc e hf hlt)
      rw [matchScanAux_eq_full_of_no_near tc avail hno 99980001 none,
          matchScanFullAux_eq_specBestLt]
      have hall : specBestLt tc avail 99980001 = specBest tc avail := by
        rw [specBestLt]
        congr 1
        refine List.filter_eq_self.mpr fun e he => ?_
        exact decide_eq_true (getColorDist2_lt_init e.color tc (hbound e he))
      rw [hall]
      cases specBest tc avail <;> rfl

/-- Every entry of the `available` list carries the color of one of the
voxels it was built from. -/
theorem buildAvail_mem_color (vs : List SimulationVoxel) :
    ∀ (i : ℕ) (e : AvailEntry), e ∈ buildAvail i vs → ∃ v ∈ vs, e.color = v.color := by
  induction vs with
  | nil => intro i e he; simp [buildAvail] at he
  | cons v rest ih =>
    intro i e he
    rw [buildAvail] at he
    rcases List.mem_cons.mp he with rfl | hm
    · exact ⟨v, List.mem_cons_self _ _, rfl⟩
    · obtain ⟨w, hw, hc⟩ := ih (i + 1) e hm
      exact ⟨w, List.mem_cons_of_mem _ hw, hc⟩

/-- The greedy loop gives the same result whether the per-target choice is
made by the source's early-exiting scan or by the declarative rule, as long
as all source colors stay normalized (marking entries taken preserves the
colors). -/
theorem rebuildLoopWith_congr (floorY : ℚ) (T : List VoxelData) :
    ∀ (avail : List AvailEntry) (maps : List (Option RebuildTarget)),
      (∀ e ∈ avail, ChannelsBounded e.color) →
      rebuildLoopWith matchScan floorY T avail maps =
        rebuildLoopWith specChoose floorY T avail maps := by
  induction T with
  | nil => intro avail maps _; rfl
  | cons t rest ih =>
    intro avail maps hb
    rw [rebuildLoopWith, rebuildLoopWith, matchScan_eq_specChoose avail t.color hb]
    cases specChoose avail t.color with
    | none => exact ih avail maps hb
    | some j =>
        refine ih _ _ ?_
        intro e2 he2
        rw [List.mem_map] at he2
        obtain ⟨e, he, rfl⟩ := he2
        by_cases hj : e.index = j
        · rw [if_pos hj]
          exact hb e he
        · rw [if_neg hj]
          exact hb e he

/-- The matcher as the specification words it: same guard, same greedy loop
in target input order, same delay formula, but the per-target choice is the
declarative `specChoose` (first untaken near-exact source, else the
minimal-distance untaken source with ties to the lowest index). -/
def specRebuild (s : EngineState) (targetModel : List VoxelData) (floorY now : ℚ) :
    EngineState :=
  if s.state = AppState.REBUILDING then s
  else
    let available := buildAvail 0 s.voxels
    let maps := rebuildLoopWith specChoose floorY targetModel available
      (List.replicate s.voxels.length none)
    let targets := (s.voxels.zip maps).map fun vm =>
      vm.2.getD { x := vm.1.x, y := vm.1.y, z := vm.1.z, delay := 0, isRubble := true }
    { s with rebuildTargets := targets, rebuildStartTime := now,
             state := AppState.REBUILDING }

/-- Engine state with a near-red voxel at index 0 and an exactly red voxel
at index 1, both with normalized colors. -/
def exC1Source : EngineState :=
  { voxels := createVoxels
      [{ x := 0, y := 0, z := 0, color := 0xFE0000 },
       { x := 1, y := 0, z := 0, color := 0xFF0000 }]
    rebuildTargets := [], rebuildStartTime := 0, state := AppState.STABLE }

/-- Result of rebuilding `exC1Source` toward a single pure-red target. -/
def exC1Result : EngineState :=
  rebuild exC1Source [{ x := 0, y := 5, z := 0, color := 0xFF0000 }] 0 0

/-- Counterexample to C1 as stated: on an accepted rebuild, the pure-red
target is matched to source 0 (whose distance to red is positive but below
the early-exit epsilon) while source 1, at distance exactly 0 — strictly
smaller — is left as rubble, so the matched source is not the one with
minimal perceptual color distance. -/
theorem C1_counterexample :
    exC1Source.state ≠ AppState.REBUILDING ∧
    getColorDist2 (Color.ofHex 0xFF0000) 0xFF0000 <
      getColorDist2 (Color.ofHex 0xFE0000) 0xFF0000 ∧
    exC1Result.rebuildTargets.map RebuildTarget.isRubble = [false, true] := by
  decide

/-- C1 (amended): for every accepted `rebuild` call on normalized source
colors, the matcher processes target cells in input order and coincides
with the spec-worded `specRebuild`: each target cell takes the first
not-yet-taken source within distance `0.01` of its color when one exists
(the early exit), and otherwise the not-yet-taken source of minimal
perceptual distance with ties to the lowest source index; each matched
source receives `{x, y, z, delay = max 0 ((y - floorY) / 15) * 800}`. -/
theorem C1_matcher_selection (s : EngineState) (T : List VoxelData) (floorY now : ℚ)
    (hst : s.state ≠ AppState.REBUILDING)
    (hch : ∀ v ∈ s.voxels, ChannelsBounded v.color) :
    rebuild s T floorY now = specRebuild s T floorY now := by
  have hb : ∀ e ∈ buildAvail 0 s.voxels, ChannelsBounded e.color := by
    intro e he
    obtain ⟨v, hv, hc⟩ := buildAvail_mem_color s.voxels 0 e he
    rw [hc]
    exact hch v hv
  simp only [rebuild, specRebuild, if_neg hst]
  rw [rebuildLoopWith_congr floorY T (buildAvail 0 s.voxels) _ hb]

/-- Witness for the amended C1 at a concrete accepted call. -/
theorem C1_matcher_selection_witness :
    exStable.state ≠ AppState.REBUILDING ∧
    (∀ v ∈ exStable.voxels, ChannelsBounded v.color) ∧
    rebuild exStable [{ x := 0, y := 1, z := 0, color := 0x00FF00 }] 0 0 =
      specRebuild exStable [{ x := 0, y := 1, z := 0, color := 0x00FF00 }] 0 0 :=
  ⟨by decide, by decide,
   C1_matcher_selection exStable [{ x := 0, y := 1, z := 0, color := 0x00FF00 }] 0 0
     (by decide) (by decide)⟩

/-! ## Claim C3 — rubble/matched partition counts -/

/-- Once the scan's accumulator holds an index, the result is always some
index: the running best is never discarded. -/
theorem matchScanAux_isSome_of_best (tc : ℕ) (l : List AvailEntry) :
    ∀ (bd : ℚ) (j : ℕ), (matchScanAux tc l bd (some j)).isSome = true := by
  induction l with
  | nil => intro bd j; rfl
  | cons a rest ih =>
    intro bd j
    rw [matchScanAux]
    by_cases ht : a.taken = true
    · rw [if_pos ht]; exact ih bd j
    · rw [if_neg ht]
      by_cases hda : getColorDist2 a.color tc < bd
      · rw [if_pos hda]
        by_cases hnear : getColorDist2 a.color tc < 1 / 10000
        · rw [if_pos hnear]; rfl
        · rw [if_neg hnear]; exact ih _ _
      · rw [if_neg hda]; exact ih bd j

/-- A chosen index always names an untaken entry of the scanned list,
unless it was already the accumulator's value. -/
theorem matchScanAux_some_mem (tc : ℕ) (l : List AvailEntry) :
    ∀ (bd : ℚ) (best : Option ℕ) (j : ℕ), matchScanAux tc l bd best = some j →
      (∃ e ∈ l, e.index = j ∧ e.taken = false) ∨ best = some j := by
  induction l with
  | nil => intro bd best j h; exact Or.inr h
  | cons a rest ih =>
    intro bd best j h
    rw [matchScanAux] at h
    by_cases ht : a.taken = true
    · rw [if_pos ht] at h
      rcases ih bd best j h with ⟨e, he, hi, hf⟩ | hb
      · exact Or.inl ⟨e, List.mem_cons_of_mem _ he, hi, hf⟩
      · exact Or.inr hb
    · rw [if_neg ht] at h
      have hf : a.taken = false := Bool.eq_false_iff.mpr ht
      by_cases hda : getColorDist2 a.color tc < bd
      · rw [if_pos hda] at h
        by_cases hnear : getColorDist2 a.color tc < 1 / 10000
        · rw [if_pos hnear] at h
          exact Or.inl ⟨a, List.mem_cons_self _ _, Option.some.inj h, hf⟩
        · rw [if_neg hnear] at h
          rcases ih _ _ j h with ⟨e, he, hi, hf2⟩ | hb
          · exact Or.inl ⟨e, List.mem_cons_of_mem _ he, hi, hf2⟩
          · exact Or.inl ⟨a, List.mem_cons_self _ _, Option.some.inj hb, hf⟩
      · rw [if_neg hda] at h
        rcases ih bd best j h with ⟨e, he, hi, hf2⟩ | hb
        · exact Or.inl ⟨e, List.mem_cons_of_mem _ he, hi, hf2⟩
        · exact Or.inr hb

/-- The scan finds something whenever some untaken entry beats the running
best distance. -/
theorem matchScanAux_isSome (tc : ℕ) (l : List AvailEntry) :
    ∀ (bd : ℚ) (best : Option ℕ),
      (∃ e ∈ l, e.taken = false ∧ getColorDist2 e.color tc < bd) →
      (matchScanAux tc l bd best).isSome = true := by
  induction l with
  | nil =>
      intro bd best h
      obtain ⟨e, he, _⟩ := h
      exact absurd he (List.not_mem_nil e)
  | cons a rest ih =>
    intro bd best h
    obtain ⟨e, he, hf, hd⟩ := h
    rw [matchScanAux]
    by_cases ht : a.taken = true
    · rw [if_pos ht]
      rcases List.mem_cons.mp he with rfl | hm
      · rw [ht] at hf; exact absurd hf (by simp)
      · exact ih bd best ⟨e, hm, hf, hd⟩
    · rw [if_neg ht]
      by_cases hda : getColorDist2 a.color tc < bd
      · rw [if_pos hda]
        by_cases hnear : getColorDist2 a.color tc < 1 / 10000
        · rw [if_pos hnear]; rfl
        · rw [if_neg hnear]; exact matchScanAux_isSome_of_best tc rest _ _
      · rw [if_neg hda]
        rcases List.mem_cons.mp he with rfl | hm
        · exact absurd hd hda
        · exact ih bd best ⟨e, hm, hf, hd⟩

/-- The greedy loop preserves the length of the mapping table. -/
theorem rebuildLoop_length (choose : List AvailEntry → ℕ → Option ℕ) (floorY : ℚ)
    (T : List VoxelData) :
    ∀ (avail : List AvailEntry) (maps : List (Option RebuildTarget)),
      (rebuildLoopWith choose floorY T avail maps).length = maps.length := by
  induction T with
  | nil => intro avail maps; rfl
  | cons t rest ih =>
    intro avail maps
    rw [rebuildLoopWith]
    cases choose avail t.color with
    | none => exact ih avail maps
    | some j => rw [ih]; exact List.length_set maps j _


/-- Every mapping the greedy loop writes is a matched (non-rubble) target,
so the only `some` entries of the final table are non-rubble. -/
theorem rebuildLoop_nonrubble (floorY : ℚ) (T : List VoxelData) :
    ∀ (avail : List AvailEntry) (maps : List (Option RebuildTarget)),
      (∀ m ∈ maps, ∀ t : RebuildTarget, m = some t → t.isRubble = false) →
      ∀ m ∈ rebuildLoopWith matchScan floorY T avail maps,
        ∀ t : RebuildTarget, m = some t → t.isRubble = false := by
  induction T with
  | nil =>
      intro avail maps h
      rw [rebuildLoopWith]
      exact h
  | cons t rest ih =>
    intro avail maps h
    rw [rebuildLoopWith]
    cases matchScan avail t.color with
    | none => exact ih avail maps h
    | some j =>
        refine ih _ _ ?_
        intro m hm t2 ht2
        rcases List.mem_or_eq_of_mem_set hm with hmem | rfl
        · exact h m hmem t2 ht2
        · cases Option.some.inj ht2
          rfl

/-- Core counting invariant of the matcher: starting from a table aligned
with the availability flags (slot `k` filled iff entry `k` is taken, entry
`k` carrying index `k`), processing the target list fills exactly one
fresh slot per target until the table is full. -/
theorem rebuildLoop_count (floorY : ℚ) (T : List VoxelData) :
    ∀ (avail : List AvailEntry) (maps : List (Option RebuildTarget)),
      maps.length = avail.length →
      (∀ (k : ℕ) (e : AvailEntry), avail[k]? = some e → e.index = k) →
      (∀ (k : ℕ) (e : AvailEntry) (m : Option RebuildTarget),
          avail[k]? = some e → maps[k]? = some m → e.taken = m.isSome) →
      (∀ e ∈ avail, ChannelsBounded e.color) →
      (rebuildLoopWith matchScan floorY T avail maps).countP (fun m => m.isSome) =
        min (maps.countP (fun m => m.isSome) + T.length) maps.length := by
  induction T with
  | nil =>
      intro avail maps hlen hidx htk hch
      rw [rebuildLoopWith, List.length_nil, Nat.add_zero,
          Nat.min_eq_left (List.countP_le_length _)]
  | cons t rest ih =>
    intro avail maps hlen hidx htk hch
    rw [rebuildLoopWith]
    cases hM : matchScan avail t.color with
    | none =>
        have halltk : ∀ e ∈ avail, e.taken = true := by
          intro e he
          by_contra hne
          have hf : e.taken = false := Bool.eq_false_iff.mpr hne
          have hdlt : getColorDist2 e.color t.color < 99980001 :=
            getColorDist2_lt_init e.color t.color (hch e he)
          have hs : (matchScanAux t.color avail 99980001 none).isSome = true :=
            matchScanAux_isSome t.color avail 99980001 none ⟨e, he, hf, hdlt⟩
          rw [← matchScan, hM] at hs
          exact Bool.false_ne_true hs
        have hfull : maps.countP (fun m => m.isSome) = maps.length := by
          rw [List.countP_eq_length]
          intro m hm
          obtain ⟨k, hk⟩ := List.mem_iff_getElem?.mp hm
          have hklen : k < maps.length := (List.getElem?_eq_some.mp hk).1
          have hkav : k < avail.length := hlen ▸ hklen
          have hae : avail[k]? = some avail[k] := List.getElem?_eq_getElem hkav
          have h1 := htk k (avail[k]) m hae hk
          rw [← h1]
          exact halltk _ (List.mem_iff_getElem?.mpr ⟨k, hae⟩)
        rw [ih avail maps hlen hidx htk hch, hfull, List.length_cons,
            Nat.min_eq_right (Nat.le_add_right _ _),
            Nat.min_eq_right (Nat.le_add_right _ _)]
    | some j =>
        have hj := matchScanAux_some_mem t.color avail 99980001 none j
          (by rw [← matchScan]; exact hM)
        rcases hj with ⟨e, he, hidxe, hf⟩ | hbad
        · obtain ⟨k, hk⟩ := List.mem_iff_getElem?.mp he
          have hjk : j = k := by rw [← hidxe]; exact hidx k e hk
          subst hjk
          have hjlen : j < avail.length := (List.getElem?_eq_some.mp hk).1
          have hjm : j < maps.length := by rw [hlen]; exact hjlen
          obtain ⟨m0, hm0⟩ : ∃ m0, maps[j]? = some m0 :=
            ⟨maps[j], List.getElem?_eq_getElem hjm⟩
          have htkj := htk j e m0 hk hm0
          have hm0none : m0 = none := by
            cases hmm : m0 with
            | none => rfl
            | some x =>
                rw [hmm] at htkj
                rw [hf] at htkj
                exact absurd htkj.symm (by simp)
          subst hm0none
          have hcount : (maps.set j (some
              { x := t.x, y := t.y, z := t.z,
                delay := max 0 ((t.y - floorY) / 15) * 800,
                isRubble := false })).countP (fun m => m.isSome) =
              maps.countP (fun m => m.isSome) + 1 := by
            rw [List.countP_set _ _ _ _ hjm]
            obtain ⟨h2, hval⟩ := List.getElem?_eq_some.mp hm0
            simp [hval]
          rw [ih _ _ ?_ ?_ ?_ ?_]
          · rw [hcount, List.length_set, List.length_cons]
            have harith : maps.countP (fun m => m.isSome) + 1 + rest.length =
                maps.countP (fun m => m.isSome) + (rest.length + 1) := by omega
            rw [harith]
          · rw [List.length_set, List.length_map, hlen]
          · intro k e2 h2
            rw [List.getElem?_map] at h2
            cases hae : avail[k]? with
            | none => rw [hae] at h2; exact absurd h2 (by simp)
            | some a0 =>
                rw [hae] at h2
                have h3 : (if a0.index = j then { a0 with taken := true } else a0)
                    = e2 := Option.some.inj h2
                have hi0 := hidx k a0 hae
                rw [← h3]
                by_cases hji : a0.index = j
                · rw [if_pos hji]; exact hi0
                · rw [if_neg hji]; exact hi0
          · intro k e2 m2 h2 hm2
            rw [List.getElem?_map] at h2
            by_cases hkj : k = j
            · subst hkj
              rw [hk] at h2
              have h3 : (if e.index = k then { e with taken := true } else e) = e2 :=
                Option.some.inj h2
              rw [if_pos hidxe] at h3
              rw [List.getElem?_set_eq hjm] at hm2
              cases Option.some.inj hm2
              rw [← h3]
              rfl
            · rw [List.getElem?_set_ne (fun hh => hkj hh.symm)] at hm2
              cases hae : avail[k]? with
              | none => rw [hae] at h2; exact absurd h2 (by simp)
              | some a0 =>
                  rw [hae] at h2
                  have h3 : (if a0.index = j then { a0 with taken := true } else a0)
                      = e2 := Option.some.inj h2
                  have hji : ¬ a0.index = j := by
                    rw [hidx k a0 hae]
                    exact hkj
                  rw [if_neg hji] at h3
                  rw [← h3]
                  exact htk k a0 m2 hae hm2
          · intro e2 he2
            rw [List.mem_map] at he2
            obtain ⟨a0, ha0, rfl⟩ := he2
            by_cases hji : a0.index = j
            · rw [if_pos hji]; exact hch a0 ha0
            · rw [if_neg hji]; exact hch a0 ha0
        · exact absurd hbad (by simp)

/-- Counting non-rubble targets through the zip/`getD` finalization: when
the table and the voxel list have the same length, the non-rubble targets
are exactly the filled slots. -/
theorem countP_targets_of_zip :
    ∀ (vs : List SimulationVoxel) (ms : List (Option RebuildTarget)),
      vs.length = ms.length →
      (∀ m ∈ ms, ∀ t : RebuildTarget, m = some t → t.isRubble = false) →
      ((vs.zip ms).map fun vm =>
          vm.2.getD { x := vm.1.x, y := vm.1.y, z := vm.1.z, delay := 0,
                      isRubble := true }).countP (fun t => !t.isRubble) =
        ms.countP (fun m => m.isSome) := by
  intro vs
  induction vs with
  | nil =>
      intro ms hlen _
      cases ms with
      | nil => rfl
      | cons m mrest => exact absurd hlen (by simp)
  | cons v vrest ih =>
    intro ms hlen hnr
    cases ms with
    | nil => exact absurd hlen (by simp)
    | cons m mrest =>
      rw [List.zip_cons_cons, List.map_cons, List.countP_cons, List.countP_cons]
      rw [ih mrest (by simpa using hlen)
        (fun m2 hm2 t ht => hnr m2 (List.mem_cons_of_mem _ hm2) t ht)]
      congr 1
      cases m with
      | none => rfl
      | some t =>
          have hr := hnr (some t) (List.mem_cons_self _ _) t rfl
          simp [hr]

/-- Length of the `available` list. -/
theorem buildAvail_length (vs : List SimulationVoxel) :
    ∀ i : ℕ, (buildAvail i vs).length = vs.length := by
  induction vs with
  | nil => intro i; rfl
  | cons v rest ih =>
      intro i
      rw [buildAvail, List.length_cons, List.length_cons, ih (i + 1)]

/-- Indexing into the `available` list. -/
theorem buildAvail_getElem? (vs : List SimulationVoxel) :
    ∀ (i k : ℕ), (buildAvail i vs)[k]? = vs[k]?.map
      fun v => ({ index := i + k, color := v.color, taken := false } : AvailEntry) := by
  induction vs with
  | nil => intro i k; simp [buildAvail]
  | cons v rest ih =>
    intro i k
    cases k with
    | zero => simp [buildAvail]
    | succ n =>
        rw [buildAvail]
        simp only [List.getElem?_cons_succ]
        rw [ih (i + 1) n]
        have : i + 1 + n = i + (n + 1) := by omega
        rw [this]

/-- Both count classes of a boolean predicate partition the length. -/
theorem countP_bool_partition (p : α → Bool) (l : List α) :
    l.countP p + l.countP (fun a => !p a) = l.length := by
  induction l with
  | nil => rfl
  | cons a rest ih =>
      rw [List.countP_cons, List.countP_cons, List.length_cons]
      cases hp : p a <;> simp [hp] <;> omega

/-- C3: on every accepted `rebuild(T)` call with normalized source colors,
the target table has one entry per source voxel; the number of non-rubble
(matched) entries is `min |T| n`, so with fewer targets than voxels exactly
`|T|` voxels are matched and the rest are rubble, and with at least as many
targets as voxels every voxel is matched (zero rubble, the excess targets
silently dropped); and a rubble voxel is left exactly in place by every
animator tick of the Rebuilding phase. -/
theorem C3_rubble_partition (s : EngineState) (T : List VoxelData) (floorY now : ℚ)
    (hst : s.state ≠ AppState.REBUILDING)
    (hch : ∀ v ∈ s.voxels, ChannelsBounded v.color) :
    ((rebuild s T floorY now).rebuildTargets.length = s.voxels.length) ∧
    ((rebuild s T floorY now).rebuildTargets.countP (fun t => !t.isRubble) =
      min T.length s.voxels.length) ∧
    (T.length ≤ s.voxels.length →
      (rebuild s T floorY now).rebuildTargets.countP (fun t => !t.isRubble) = T.length) ∧
    (s.voxels.length ≤ T.length →
      (rebuild s T floorY now).rebuildTargets.countP (fun t => t.isRubble) = 0) ∧
    (∀ (i : ℕ) (v : SimulationVoxel) (t : RebuildTarget) (now2 : ℚ),
      (rebuild s T floorY now).voxels[i]? = some v →
      (rebuild s T floorY now).rebuildTargets[i]? = some t →
      t.isRubble = true →
      (updatePhysics (rebuild s T floorY now) floorY now2).voxels[i]? = some v) := by
  have hA : (buildAvail 0 s.voxels).length = s.voxels.length :=
    buildAvail_length s.voxels 0
  have hlen0 : (List.replicate s.voxels.length
      (none : Option RebuildTarget)).length = (buildAvail 0 s.voxels).length := by
    rw [List.length_replicate, hA]
  have hidx0 : ∀ (k : ℕ) (e : AvailEntry),
      (buildAvail 0 s.voxels)[k]? = some e → e.index = k := by
    intro k e h
    rw [buildAvail_getElem?] at h
    cases hv : s.voxels[k]? with
    | none => rw [hv] at h; exact absurd h (by simp)
    | some v =>
        rw [hv] at h
        have h2 := Option.some.inj h
        rw [← h2]
        exact Nat.zero_add k
  have htk0 : ∀ (k : ℕ) (e : AvailEntry) (m : Option RebuildTarget),
      (buildAvail 0 s.voxels)[k]? = some e →
      (List.replicate s.voxels.length (none : Option RebuildTarget))[k]? = some m →
      e.taken = m.isSome := by
    intro k e m he hm
    rw [List.getElem?_replicate] at hm
    by_cases hk : k < s.voxels.length
    · rw [if_pos hk] at hm
      cases Option.some.inj hm
      rw [buildAvail_getElem?] at he
      cases hv : s.voxels[k]? with
      | none => rw [hv] at he; exact absurd he (by simp)
      | some v =>
          rw [hv] at he
          rw [← Option.some.inj he]
          rfl
    · rw [if_neg hk] at hm
      exact absurd hm (by simp)
  have hch0 : ∀ e ∈ buildAvail 0 s.voxels, ChannelsBounded e.color := by
    intro e he
    obtain ⟨v, hv, hc⟩ := buildAvail_mem_color s.voxels 0 e he
    rw [hc]
    exact hch v hv
  have hzero : (List.replicate s.voxels.length
      (none : Option RebuildTarget)).countP (fun m => m.isSome) = 0 := by
    rw [List.countP_eq_zero]
    intro m hm
    rw [List.eq_of_mem_replicate hm]
    simp
  have hMF := rebuildLoop_count floorY T (buildAvail 0 s.voxels)
    (List.replicate s.voxels.length none) hlen0 hidx0 htk0 hch0
  rw [hzero, Nat.zero_add, List.length_replicate] at hMF
  have hMFlen : (rebuildLoopWith matchScan floorY T (buildAvail 0 s.voxels)
      (List.replicate s.voxels.length none)).length = s.voxels.length := by
    rw [rebuildLoop_length, List.length_replicate]
  have hMFnr := rebuildLoop_nonrubble floorY T (buildAvail 0 s.voxels)
    (List.replicate s.voxels.length none)
    (fun m hm t ht => by
      rw [List.eq_of_mem_replicate hm] at ht
      exact absurd ht (by simp))
  have hTG := countP_targets_of_zip s.voxels
    (rebuildLoopWith matchScan floorY T (buildAvail 0 s.voxels)
      (List.replicate s.voxels.length none)) hMFlen.symm hMFnr
  have hreb : (rebuild s T floorY now).rebuildTargets =
      (s.voxels.zip (rebuildLoopWith matchScan floorY T (buildAvail 0 s.voxels)
        (List.replicate s.voxels.length none))).map fun vm =>
          vm.2.getD { x := vm.1.x, y := vm.1.y, z := vm.1.z, delay := 0,
                      isRubble := true } := by
    simp only [rebuild, if_neg hst]
  have hrebvox : (rebuild s T floorY now).voxels = s.voxels := by
    simp only [rebuild, if_neg hst]
  have hcount : (rebuild s T floorY now).rebuildTargets.countP
      (fun t => !t.isRubble) = min T.length s.voxels.length := by
    rw [hreb, hTG, hMF, Nat.min_comm]
  have hlenTG : (rebuild s T floorY now).rebuildTargets.length = s.voxels.length := by
    rw [hreb, List.length_map, List.length_zip, hMFlen]
    exact Nat.min_self _
  refine ⟨hlenTG, hcount, ?_, ?_, ?_⟩
  · intro hle
    rw [hcount]
    exact Nat.min_eq_left hle
  · intro hge
    have hpart := countP_bool_partition
      (fun t : RebuildTarget => t.isRubble) (rebuild s T floorY now).rebuildTargets
    have hmin : min T.length s.voxels.length = s.voxels.length := Nat.min_eq_right hge
    rw [hcount, hmin] at hpart
    rw [hlenTG] at hpart
    omega
  · intro i v t now2 hv ht hrub
    have hstate : (rebuild s T floorY now).state = AppState.REBUILDING := by
      simp only [rebuild, if_neg hst]
    have hp : ((rebuild s T floorY now).voxels.zip
        (rebuild s T floorY now).rebuildTargets)[i]? = some (v, t) := by
      rw [zip_getElem?_eq, hv, ht]
      rfl
    have hu : (updatePhysics (rebuild s T floorY now) floorY now2).voxels =
        ((rebuild s T floorY now).voxels.zip
          (rebuild s T floorY now).rebuildTargets).map
          (stepVoxelRebuild (now2 - (rebuild s T floorY now).rebuildStartTime)) := by
      rw [updatePhysics, hstate]
    rw [hu, List.getElem?_map, hp]
    have hstep : stepVoxelRebuild
        (now2 - (rebuild s T floorY now).rebuildStartTime) (v, t) = v := by
      rw [stepVoxelRebuild]
      simp [hrub]
    have hmap : Option.map (stepVoxelRebuild
        (now2 - (rebuild s T floorY now).rebuildStartTime)) (some (v, t)) =
        some (stepVoxelRebuild
          (now2 - (rebuild s T floorY now).rebuildStartTime) (v, t)) := rfl
    rw [hmap, hstep]

/-- Source state for the C3 witness: two voxels, colors red and blue. -/
def exC3Source : EngineState :=
  { voxels := createVoxels
      [{ x := 0, y := 0, z := 0, color := 0xFF0000 },
       { x := 1, y := 0, z := 0, color := 0x0000FF }]
    rebuildTargets := [], rebuildStartTime := 0, state := AppState.STABLE }

/-- Witness for C3: rebuilding two voxels toward a single target matches
exactly one voxel and leaves one rubble entry. -/
theorem C3_rubble_partition_witness :
    exC3Source.state ≠ AppState.REBUILDING ∧
    (∀ v ∈ exC3Source.voxels, ChannelsBounded v.color) ∧
    (rebuild exC3Source [{ x := 0, y := 2, z := 0, color := 0x0000FF }] 0 0).rebuildTargets.countP
      (fun t => !t.isRubble) = 1 := by
  refine ⟨by decide, by decide, ?_⟩
  exact (C3_rubble_partition exC3Source
    [{ x := 0, y := 2, z := 0, color := 0x0000FF }] 0 0
    (by decide) (by decide)).2.2.1 (by decide)

end VoxelSpec
